import Mathlib

/-
Verification development for the metrics-aggregation engine of
src/pipeline/compute_metrics.py.

The Python program is shallowly embedded as follows:
- a stream (one jsonl file read line by line, padded with None by
  itertools.zip_longest past its end) becomes a `List (ParsedLine J)`,
  where `J` is the family-specific shape of a parsed, truthy JSON object;
  a line that is falsy (empty string, or the None padding) is `.blank`,
  a line whose json.loads result is falsy is `.falsyJson`, and otherwise
  the parsed object is `.record j`;
- each evaluator family (MathEval, CodeEval, IFEval) becomes a record of
  a reset state, a fill_up_missing placeholder, a completeness check
  (`toRecord j = none` exactly when the source's is_incomplete is true,
  and otherwise the validated record), an update function and a
  get_metrics function;
- Python exceptions (RuntimeError for missing data, ValueError for an
  unsupported aggregation mode, IndexError from list indexing,
  ZeroDivisionError from integer division by zero) become `Except Err`;
- Python float division in get_metrics is modelled exactly over ℚ;
- the driver compute_metrics becomes `computeMetrics`, which also
  reports how many times Evaluator.update was called and whether the
  file handles were closed (the source closes them in a plain loop after
  the for-loop, with no try/finally, so an exception that escapes the
  loop skips the close loop).
-/

/-- Aggregation mode, the CLI choices best|majority|first. -/
inductive Mode where
  | best
  | majority
  | first
deriving DecidableEq, Repr

/-- Embedded Python exceptions of the aggregation engine. -/
inductive Err where
  | missingData
  | unsupportedMode
  | indexError
  | divisionByZero
deriving DecidableEq, Repr

/-- One line of a stream as the driver sees it after json parsing:
falsy line (empty string or the zip_longest None padding), falsy parsed
JSON value, or a parsed JSON object of family-specific shape `J`. -/
inductive ParsedLine (J : Type) where
  | blank
  | falsyJson
  | record (j : J)
deriving DecidableEq, Repr

/-- One benchmark-family evaluator: reset state, canonical missing
placeholder, completeness check plus field extraction, update, and
get_metrics. `toRecord j = none` exactly when the source is_incomplete
returns True on the parsed object `j`. -/
structure Evaluator (J R S M : Type) where
  reset : S
  fill_up_missing : R
  toRecord : J → Option R
  update : S → List R → Mode → Except Err S
  get_metrics : S → Except Err M

/-! ## Math family (class MathEval) -/

/-- Parsed JSON object for the Math family; an outer `none` models an
absent key, `some` a present key (whose value may be JSON null for
predicted_answer). -/
structure MathJson where
  predicted_answer : Option (Option String)
  is_correct : Option Bool
deriving DecidableEq, Repr

/-- Math judgment record once both required keys are known present. -/
structure MathRecord where
  predicted_answer : Option String
  is_correct : Bool
deriving DecidableEq, Repr

/-- MathEval.is_incomplete rejects an element iff is_correct or
predicted_answer is not a key; on complete elements this extracts the
record. -/
def mathToRecord (j : MathJson) : Option MathRecord :=
  match j.predicted_answer, j.is_correct with
  | some pa, some ic => some ⟨pa, ic⟩
  | _, _ => none

/-- MathEval.fill_up_missing. -/
def mathFill : MathRecord := ⟨none, false⟩

/-- Running counters of MathEval. -/
structure MathState where
  total_correct : Nat
  total_no_answer : Nat
  total : Nat
deriving DecidableEq, Repr

/-- MathEval.reset. -/
def mathReset : MathState := ⟨0, 0, 0⟩

/-- Counter(l).most_common(1)[0][0]: Counter tallies multiplicities with
keys in first-insertion order and most_common sorts stably by descending
count, so the selected key is the one with maximal count whose first
occurrence in `l` is earliest.  The fold keeps the current best and
replaces it only on a strictly larger count, which returns exactly that
element. -/
def pickFirstMax {α : Type} [BEq α] (l : List α) : Option α :=
  match l with
  | [] => none
  | x :: xs => some (xs.foldl (fun b y => if l.count b < l.count y then y else b) x)

/-- List comprehension in MathEval.update (majority branch): the pairs
(elem[predicted_answer], elem[is_correct]) of elements whose
predicted_answer is not None, in stream order. -/
def validAnswers (preds : List MathRecord) : List (Option String × Bool) :=
  (preds.filter fun e => e.predicted_answer.isSome).map fun e => (e.predicted_answer, e.is_correct)

/-- MathEval.update. -/
def mathUpdate (s : MathState) (preds : List MathRecord) (mode : Mode) : Except Err MathState :=
  let s1 : MathState := {s with total := s.total + 1}
  match mode with
  | .best =>
    .ok {s1 with
          total_correct := s1.total_correct + (if preds.any fun e => e.is_correct then 1 else 0),
          total_no_answer :=
            s1.total_no_answer + (if preds.all fun e => e.predicted_answer.isNone then 1 else 0)}
  | .majority =>
    match pickFirstMax (validAnswers preds) with
    | none => .ok {s1 with total_no_answer := s1.total_no_answer + 1}
    | some p => .ok {s1 with total_correct := s1.total_correct + (if p.2 then 1 else 0)}
  | .first =>
    match preds with
    | [] => .error .indexError
    | p :: _ =>
      .ok {s1 with
            total_correct := s1.total_correct + (if p.is_correct then 1 else 0),
            total_no_answer := s1.total_no_answer + (if p.predicted_answer.isNone then 1 else 0)}

/-- Metrics dictionary of MathEval.get_metrics. -/
structure MathMetrics where
  num_entries : Nat
  correct_answer : ℚ
  wrong_answer : ℚ
  no_answer : ℚ
deriving DecidableEq, Repr

/-- MathEval.get_metrics; Python raises ZeroDivisionError when total is
zero, and the subtraction total - total_correct - total_no_answer is
exact signed integer arithmetic. -/
def mathGetMetrics (s : MathState) : Except Err MathMetrics :=
  if s.total = 0 then .error .divisionByZero
  else
    .ok
      { num_entries := s.total,
        correct_answer := (s.total_correct : ℚ) / (s.total : ℚ) * 100,
        wrong_answer :=
          ((s.total : ℚ) - (s.total_correct : ℚ) - (s.total_no_answer : ℚ)) / (s.total : ℚ) * 100,
        no_answer := (s.total_no_answer : ℚ) / (s.total : ℚ) * 100 }

/-- The MathEval family bundled for the driver. -/
def mathEvaluator : Evaluator MathJson MathRecord MathState MathMetrics :=
  ⟨mathReset, mathFill, mathToRecord, mathUpdate, mathGetMetrics⟩

/-! ## Code family (class CodeEval) -/

/-- Parsed JSON object for the Code family (keys is_correct and
is_correct-plus, either possibly absent). -/
structure CodeJson where
  is_correct : Option Bool
  is_correct_plus : Option Bool
deriving DecidableEq, Repr

/-- Code judgment record once both required keys are known present. -/
structure CodeRecord where
  is_correct : Bool
  is_correct_plus : Bool
deriving DecidableEq, Repr

/-- CodeEval.is_incomplete rejects an element iff is_correct or
is_correct-plus is not a key; on complete elements this extracts the
record. -/
def codeToRecord (j : CodeJson) : Option CodeRecord :=
  match j.is_correct, j.is_correct_plus with
  | some ic, some icp => some ⟨ic, icp⟩
  | _, _ => none

/-- CodeEval.fill_up_missing. -/
def codeFill : CodeRecord := ⟨false, false⟩

/-- Running counters of CodeEval. -/
structure CodeState where
  total_correct : Nat
  total_correct_plus : Nat
  total : Nat
deriving DecidableEq, Repr

/-- CodeEval.reset. -/
def codeReset : CodeState := ⟨0, 0, 0⟩

/-- CodeEval.update; majority is not implemented and raises ValueError. -/
def codeUpdate (s : CodeState) (preds : List CodeRecord) (mode : Mode) : Except Err CodeState :=
  let s1 : CodeState := {s with total := s.total + 1}
  match mode with
  | .best =>
    .ok {s1 with
          total_correct := s1.total_correct + (if preds.any fun e => e.is_correct then 1 else 0),
          total_correct_plus :=
            s1.total_correct_plus + (if preds.any fun e => e.is_correct_plus then 1 else 0)}
  | .majority => .error .unsupportedMode
  | .first =>
    match preds with
    | [] => .error .indexError
    | p :: _ =>
      .ok {s1 with
            total_correct := s1.total_correct + (if p.is_correct then 1 else 0),
            total_correct_plus := s1.total_correct_plus + (if p.is_correct_plus then 1 else 0)}

/-- Metrics dictionary of CodeEval.get_metrics. -/
structure CodeMetrics where
  num_entries : Nat
  passing_base_tests : ℚ
  passing_plus_tests : ℚ
deriving DecidableEq, Repr

/-- CodeEval.get_metrics; raises ZeroDivisionError when total is zero. -/
def codeGetMetrics (s : CodeState) : Except Err CodeMetrics :=
  if s.total = 0 then .error .divisionByZero
  else
    .ok
      { num_entries := s.total,
        passing_base_tests := (s.total_correct : ℚ) / (s.total : ℚ) * 100,
        passing_plus_tests := (s.total_correct_plus : ℚ) / (s.total : ℚ) * 100 }

/-- The CodeEval family bundled for the driver. -/
def codeEvaluator : Evaluator CodeJson CodeRecord CodeState CodeMetrics :=
  ⟨codeReset, codeFill, codeToRecord, codeUpdate, codeGetMetrics⟩

/-! ## Instruction-following family (class IFEval) -/

/-- One nested judgment block of an IFEval parsed JSON object; an outer
`none` models an absent key (the required_keys check). -/
structure EvalBlockJson where
  follow_instruction_list : Option (List Bool)
  instruction_id_list : Option (List String)
deriving DecidableEq, Repr

/-- Parsed JSON object for the IFEval family. -/
structure IFJson where
  loose_eval : Option EvalBlockJson
  strict_eval : Option EvalBlockJson
deriving DecidableEq, Repr

/-- One judgment block once both required keys are known present. -/
structure EvalBlock where
  follow_instruction_list : List Bool
  instruction_id_list : List String
deriving DecidableEq, Repr

/-- Full IFEval judgment record once IFEval.is_incomplete has passed. -/
structure IFRecord where
  loose_eval : EvalBlock
  strict_eval : EvalBlock
deriving DecidableEq, Repr

/-- IFEval.is_incomplete rejects an element iff loose_eval or
strict_eval is not a key, or either block lacks one of the
required_keys; on complete elements this extracts the record. -/
def ifToRecord (j : IFJson) : Option IFRecord :=
  match j.loose_eval, j.strict_eval with
  | some lb, some sb =>
    match lb.follow_instruction_list, lb.instruction_id_list,
        sb.follow_instruction_list, sb.instruction_id_list with
    | some lf, some li, some sf, some si => some ⟨⟨lf, li⟩, ⟨sf, si⟩⟩
    | _, _, _, _ => none
  | _, _ => none

/-- IFEval.fill_up_missing: both blocks with empty lists. -/
def ifFill : IFRecord := ⟨⟨[], []⟩, ⟨[], []⟩⟩

/-- defaultdict(int) as an association list: increment the entry of key
`k`, appending it with count 1 on first sight. -/
def bumpCount (m : List (String × Nat)) (k : String) : List (String × Nat) :=
  match m with
  | [] => [(k, 1)]
  | (k1, v) :: rest => if k1 = k then (k1, v + 1) :: rest else (k1, v) :: bumpCount rest k

/-- instruction_id.split(":")[0]: the category part before the first
colon (the whole id when there is no colon). -/
def categoryOf (s : String) : String := (s.splitOn ":").headD s

/-- One stats_dict of IFEval (prompt / instruction / tier0 counters). -/
structure IFStats where
  prompt_total : Nat
  prompt_correct : Nat
  instruction_total : Nat
  instruction_correct : Nat
  tier0_total : List (String × Nat)
  tier0_correct : List (String × Nat)
deriving DecidableEq, Repr

/-- One freshly reset stats_dict. -/
def ifStatsInit : IFStats := ⟨0, 0, 0, 0, [], []⟩

/-- The comprehension follow_instruction_list[i] or
elem[follow_instruction_list][i] for i in range(len(acc)), walked
positionally.  Python's `or` short-circuits: the element list is
indexed at position i only when the accumulated value there is still
False, and only then can an out-of-range index raise IndexError
(`none`); positions where the accumulator is already True never touch
the element list, and entries of the element list beyond the
accumulator length are never read. -/
def orMerge : List Bool → List Bool → Option (List Bool)
  | [], _ => some []
  | true :: arest, elem => (orMerge arest elem.tail).map fun r => true :: r
  | false :: _, [] => none
  | false :: arest, b :: brest => (orMerge arest brest).map fun r => b :: r

/-- The pass-at-k merge loop of IFEval._update_single_stat: start from
elems[0].follow_instruction_list and OR every element's list into it
(the loop also re-merges elems[0] with itself); `none` is the
IndexError from elems[0] on an empty list or from an element list that
has no entry at a position whose accumulated value is still False. -/
def mergeFollow (elems : List EvalBlock) : Option (List Bool) :=
  match elems with
  | [] => none
  | e0 :: _ =>
    elems.foldlM (fun acc e => orMerge acc e.follow_instruction_list)
      e0.follow_instruction_list

/-- IFEval._update_single_stat. -/
def updateSingleStat (st : IFStats) (elems : List EvalBlock) : Except Err IFStats :=
  match elems with
  | [] => .error .indexError
  | e0 :: _ =>
    match mergeFollow elems with
    | none => .error .indexError
    | some fil =>
      let iil := e0.instruction_id_list
      let st1 : IFStats :=
        {st with
          prompt_total := st.prompt_total + 1,
          prompt_correct := st.prompt_correct + (if fil.all (fun b => b) then 1 else 0),
          instruction_total := st.instruction_total + iil.length,
          instruction_correct := st.instruction_correct + fil.count true}
      .ok ((iil.zip fil).foldl
        (fun acc pr =>
          let cat := categoryOf pr.1
          {acc with
            tier0_total := bumpCount acc.tier0_total cat,
            tier0_correct := if pr.2 then bumpCount acc.tier0_correct cat else acc.tier0_correct})
        st1)

/-- Running state of IFEval: strict and loose stats_dicts. -/
structure IFState where
  strict_stats : IFStats
  loose_stats : IFStats
deriving DecidableEq, Repr

/-- IFEval.reset. -/
def ifReset : IFState := ⟨ifStatsInit, ifStatsInit⟩

/-- IFEval.update; majority is not implemented and raises ValueError. -/
def ifUpdate (s : IFState) (preds : List IFRecord) (mode : Mode) : Except Err IFState :=
  match mode with
  | .best => do
    let st ← updateSingleStat s.strict_stats (preds.map fun p => p.strict_eval)
    let lo ← updateSingleStat s.loose_stats (preds.map fun p => p.loose_eval)
    .ok ⟨st, lo⟩
  | .majority => .error .unsupportedMode
  | .first =>
    match preds with
    | [] => .error .indexError
    | p :: _ => do
      let st ← updateSingleStat s.strict_stats [p.strict_eval]
      let lo ← updateSingleStat s.loose_stats [p.loose_eval]
      .ok ⟨st, lo⟩

/-- Metrics dictionary of IFEval.get_metrics. -/
structure IFMetrics where
  num_prompts : Nat
  num_instructions : Nat
  prompt_strict_accuracy : ℚ
  instruction_strict_accuracy : ℚ
  prompt_loose_accuracy : ℚ
  instruction_loose_accuracy : ℚ
deriving DecidableEq, Repr

/-- IFEval.get_metrics: both denominators are the strict totals; Python
raises ZeroDivisionError at the first accuracy entry whose denominator
is zero. -/
def ifGetMetrics (s : IFState) : Except Err IFMetrics :=
  let pt := s.strict_stats.prompt_total
  let it := s.strict_stats.instruction_total
  if pt = 0 then .error .divisionByZero
  else if it = 0 then .error .divisionByZero
  else
    .ok
      { num_prompts := pt,
        num_instructions := it,
        prompt_strict_accuracy := (s.strict_stats.prompt_correct : ℚ) / (pt : ℚ) * 100,
        instruction_strict_accuracy := (s.strict_stats.instruction_correct : ℚ) / (it : ℚ) * 100,
        prompt_loose_accuracy := (s.loose_stats.prompt_correct : ℚ) / (pt : ℚ) * 100,
        instruction_loose_accuracy := (s.loose_stats.instruction_correct : ℚ) / (it : ℚ) * 100 }

/-- The IFEval family bundled for the driver. -/
def ifEvaluator : Evaluator IFJson IFRecord IFState IFMetrics :=
  ⟨ifReset, ifFill, ifToRecord, ifUpdate, ifGetMetrics⟩

/-! ## The driver (compute_metrics) -/

/-- Reading the idx-th line of one stream: past the end of the file
zip_longest pads with None, which the driver sees as a falsy line. -/
def getLineAt {J : Type} (stream : List (ParsedLine J)) (idx : Nat) : ParsedLine J :=
  (stream.get? idx).getD .blank

/-- Per-line branch of the driver loop body: the three failure cases
(falsy line, falsy parsed JSON, incomplete record) raise RuntimeError
when allow_incomplete is false and substitute fill_up_missing when it
is true. -/
def readLine {J R S M : Type} (ev : Evaluator J R S M) (allow : Bool) (l : ParsedLine J) :
    Except Err R :=
  match l with
  | .blank => if allow then .ok ev.fill_up_missing else .error .missingData
  | .falsyJson => if allow then .ok ev.fill_up_missing else .error .missingData
  | .record j =>
    match ev.toRecord j with
    | none => if allow then .ok ev.fill_up_missing else .error .missingData
    | some r => .ok r

/-- Building the `data` list for one index: one contribution per stream
in stream order, stopping at the first raised error. -/
def buildGroup {J R S M : Type} (ev : Evaluator J R S M) (streams : List (List (ParsedLine J)))
    (allow : Bool) (idx : Nat) : Except Err (List R) :=
  match streams with
  | [] => .ok []
  | st :: rest =>
    match readLine ev allow (getLineAt st idx) with
    | .error e => .error e
    | .ok r =>
      match buildGroup ev rest allow idx with
      | .error e => .error e
      | .ok rs => .ok (r :: rs)

/-- Number of tuples produced by zip_longest over the open handles: the
length of the longest stream (0 when there are no streams). -/
def maxLen {J : Type} (streams : List (List (ParsedLine J))) : Nat :=
  streams.foldr (fun st m => max st.length m) 0

/-- The enumerate loop of compute_metrics over the given line indices:
breaks when idx == max_samples, otherwise builds the group and updates
the evaluator; returns the evaluator state (or the escaping error) and
the number of update calls made. -/
def runFrom {J R S M : Type} (ev : Evaluator J R S M) (streams : List (List (ParsedLine J)))
    (allow : Bool) (maxSamples : Int) (mode : Mode) :
    List Nat → S → Nat → Except Err S × Nat
  | [], s, n => (.ok s, n)
  | idx :: rest, s, n =>
    if (idx : Int) = maxSamples then (.ok s, n)
    else
      match buildGroup ev streams allow idx with
      | .error e => (.error e, n)
      | .ok g =>
        match ev.update s g mode with
        | .error e => (.error e, n)
        | .ok s1 => runFrom ev streams allow maxSamples mode rest s1 (n + 1)

/-- Outcome of one compute_metrics call: the returned metrics or the
escaping exception, whether the close loop after the for-loop ran (the
source has no try/finally, so an exception escaping the loop skips it),
and how many times Evaluator.update was called. -/
structure RunResult (M : Type) where
  result : Except Err M
  handlesClosed : Bool
  updates : Nat

/-- compute_metrics: reset, iterate the zip_longest indices, close the
handles only when the loop is left normally (completion or the
max_samples break), then derive the metrics. -/
def computeMetrics {J R S M : Type} (ev : Evaluator J R S M)
    (streams : List (List (ParsedLine J))) (allow : Bool) (maxSamples : Int) (mode : Mode) :
    RunResult M :=
  match runFrom ev streams allow maxSamples mode (List.range (maxLen streams)) ev.reset 0 with
  | (.error e, n) => ⟨.error e, false, n⟩
  | (.ok s, n) => ⟨ev.get_metrics s, true, n⟩

/-- compute_metrics applied to the Math family. -/
def computeMetricsMath (streams : List (List (ParsedLine MathJson))) (allow : Bool)
    (maxSamples : Int) (mode : Mode) : RunResult MathMetrics :=
  computeMetrics mathEvaluator streams allow maxSamples mode

/-- compute_metrics applied to the Code family. -/
def computeMetricsCode (streams : List (List (ParsedLine CodeJson))) (allow : Bool)
    (maxSamples : Int) (mode : Mode) : RunResult CodeMetrics :=
  computeMetrics codeEvaluator streams allow maxSamples mode

/-- compute_metrics applied to the IFEval family. -/
def computeMetricsIF (streams : List (List (ParsedLine IFJson))) (allow : Bool)
    (maxSamples : Int) (mode : Mode) : RunResult IFMetrics :=
  computeMetrics ifEvaluator streams allow maxSamples mode

/-! ## Helper lemmas about the driver loop -/

/-- One parsed line hits one of the three failure cases of the driver
loop body: falsy line, falsy JSON value, or incomplete record. -/
def badLine {J R S M : Type} (ev : Evaluator J R S M) (l : ParsedLine J) : Bool :=
  match l with
  | .blank => true
  | .falsyJson => true
  | .record j => (ev.toRecord j).isNone

/-- The line of `stream` at `idx` hits one of the three failure cases. -/
def lineFails {J R S M : Type} (ev : Evaluator J R S M) (stream : List (ParsedLine J))
    (idx : Nat) : Bool :=
  badLine ev (getLineAt stream idx)

/-- Folding a sequence of sample groups (each with its aggregation
mode) into the Math state, one MathEval.update call per group, stopping
at the first escaping exception. -/
def mathRunUpdates (s : MathState) (groups : List (List MathRecord × Mode)) :
    Except Err MathState :=
  match groups with
  | [] => .ok s
  | gm :: rest =>
    match mathUpdate s gm.1 gm.2 with
    | .error e => .error e
    | .ok s1 => mathRunUpdates s1 rest

lemma readLine_true_ok {J R S M : Type} (ev : Evaluator J R S M) (l : ParsedLine J) :
    ∃ r, readLine ev true l = .ok r := by
  cases l with
  | blank => exact ⟨_, rfl⟩
  | falsyJson => exact ⟨_, rfl⟩
  | record j =>
    cases h : ev.toRecord j with
    | none => exact ⟨ev.fill_up_missing, by simp [readLine, h]⟩
    | some r => exact ⟨r, by simp [readLine, h]⟩

lemma readLine_false_bad {J R S M : Type} (ev : Evaluator J R S M) (l : ParsedLine J)
    (h : badLine ev l = true) : readLine ev false l = .error .missingData := by
  cases l with
  | blank => rfl
  | falsyJson => rfl
  | record j =>
    cases hj : ev.toRecord j with
    | none => simp [readLine, hj]
    | some r => simp [badLine, hj] at h

lemma readLine_false_good {J R S M : Type} (ev : Evaluator J R S M) (l : ParsedLine J)
    (h : badLine ev l = false) : ∃ r, readLine ev false l = .ok r := by
  cases l with
  | blank => simp [badLine] at h
  | falsyJson => simp [badLine] at h
  | record j =>
    cases hj : ev.toRecord j with
    | none => simp [badLine, hj] at h
    | some r => exact ⟨r, by simp [readLine, hj]⟩

lemma readLine_error {J R S M : Type} (ev : Evaluator J R S M) (allow : Bool) (l : ParsedLine J)
    (e : Err) (h : readLine ev allow l = .error e) : e = .missingData := by
  cases allow with
  | true =>
    obtain ⟨r, hr⟩ := readLine_true_ok ev l
    rw [hr] at h
    exact absurd h (by simp)
  | false =>
    cases hb : badLine ev l with
    | true => rw [readLine_false_bad ev l hb] at h; exact (Except.error.injEq _ _).mp h |>.symm ▸ rfl
    | false =>
      obtain ⟨r, hr⟩ := readLine_false_good ev l hb
      rw [hr] at h
      exact absurd h (by simp)

lemma buildGroup_true_ok {J R S M : Type} (ev : Evaluator J R S M)
    (streams : List (List (ParsedLine J))) (idx : Nat) :
    ∃ g, buildGroup ev streams true idx = .ok g ∧ g.length = streams.length := by
  induction streams with
  | nil => exact ⟨[], rfl, rfl⟩
  | cons st rest ih =>
    obtain ⟨r, hr⟩ := readLine_true_ok ev (getLineAt st idx)
    obtain ⟨g, hg, hlen⟩ := ih
    exact ⟨r :: g, by simp [buildGroup, hr, hg], by simp [hlen]⟩

lemma buildGroup_false_fail {J R S M : Type} (ev : Evaluator J R S M)
    (streams : List (List (ParsedLine J))) (idx : Nat)
    (h : ∃ st ∈ streams, lineFails ev st idx = true) :
    buildGroup ev streams false idx = .error .missingData := by
  induction streams with
  | nil => simp at h
  | cons st rest ih =>
    cases hb : badLine ev (getLineAt st idx) with
    | true => simp [buildGroup, readLine_false_bad ev _ hb]
    | false =>
      obtain ⟨r, hr⟩ := readLine_false_good ev _ hb
      obtain ⟨st0, hmem, hfail⟩ := h
      rcases List.mem_cons.mp hmem with heq | hmem0
      · rw [heq, lineFails, hb] at hfail; exact absurd hfail (by simp)
      · have := ih ⟨st0, hmem0, hfail⟩
        simp [buildGroup, hr, this]

lemma buildGroup_error_eq {J R S M : Type} (ev : Evaluator J R S M)
    (streams : List (List (ParsedLine J))) (allow : Bool) (idx : Nat) (e : Err)
    (h : buildGroup ev streams allow idx = .error e) : e = .missingData := by
  induction streams with
  | nil => exact absurd h (by simp [buildGroup])
  | cons st rest ih =>
    rw [buildGroup] at h
    cases hr : readLine ev allow (getLineAt st idx) with
    | error e1 =>
      rw [hr] at h
      cases h
      exact readLine_error ev allow _ _ hr
    | ok r =>
      rw [hr] at h
      cases hg : buildGroup ev rest allow idx with
      | error e2 => rw [hg] at h; cases h; exact ih hg
      | ok rs => rw [hg] at h; exact absurd h (by simp)

lemma buildGroup_ok_length {J R S M : Type} (ev : Evaluator J R S M)
    (streams : List (List (ParsedLine J))) (allow : Bool) (idx : Nat) (g : List R)
    (h : buildGroup ev streams allow idx = .ok g) : g.length = streams.length := by
  induction streams generalizing g with
  | nil => rw [buildGroup] at h; cases h; rfl
  | cons st rest ih =>
    rw [buildGroup] at h
    cases hr : readLine ev allow (getLineAt st idx) with
    | error e1 => rw [hr] at h; exact absurd h (by simp)
    | ok r =>
      rw [hr] at h
      cases hg : buildGroup ev rest allow idx with
      | error e2 => rw [hg] at h; exact absurd h (by simp)
      | ok rs =>
        rw [hg] at h
        cases h
        simp [ih rs hg]

/-! ## Helper lemmas about MathEval -/

lemma mathUpdate_ok (s : MathState) (preds : List MathRecord) (mode : Mode)
    (h : preds ≠ []) : ∃ s1, mathUpdate s preds mode = .ok s1 ∧ s1.total = s.total + 1 := by
  cases mode with
  | best => exact ⟨_, rfl, rfl⟩
  | majority =>
    cases hp : pickFirstMax (validAnswers preds) with
    | none =>
      exact ⟨{s with total := s.total + 1, total_no_answer := s.total_no_answer + 1},
        by simp [mathUpdate, hp], rfl⟩
    | some p =>
      exact ⟨{s with total := s.total + 1, total_correct := s.total_correct + (if p.2 then 1 else 0)},
        by simp [mathUpdate, hp], rfl⟩
  | first =>
    cases preds with
    | nil => exact absurd rfl h
    | cons p rest => exact ⟨_, rfl, rfl⟩

lemma mathUpdate_total (s : MathState) (preds : List MathRecord) (mode : Mode) (s1 : MathState)
    (h : mathUpdate s preds mode = .ok s1) : s1.total = s.total + 1 := by
  cases mode with
  | best => simp [mathUpdate] at h; subst h; rfl
  | majority =>
    cases hp : pickFirstMax (validAnswers preds) with
    | none => simp [mathUpdate, hp] at h; subst h; rfl
    | some p => simp [mathUpdate, hp] at h; subst h; rfl
  | first =>
    cases preds with
    | nil => simp [mathUpdate] at h
    | cons p rest => simp [mathUpdate] at h; subst h; rfl

lemma mathUpdate_error (s : MathState) (preds : List MathRecord) (mode : Mode) (e : Err)
    (h : mathUpdate s preds mode = .error e) : e = .indexError := by
  cases mode with
  | best => simp [mathUpdate] at h
  | majority =>
    cases hp : pickFirstMax (validAnswers preds) with
    | none => simp [mathUpdate, hp] at h
    | some p => simp [mathUpdate, hp] at h
  | first =>
    cases preds with
    | nil => simp [mathUpdate] at h; exact h.symm
    | cons p rest => simp [mathUpdate] at h

/-! ## Helper lemmas about the loop of compute_metrics -/

lemma runFrom_nil {J R S M : Type} (ev : Evaluator J R S M)
    (streams : List (List (ParsedLine J))) (allow : Bool) (k : Int) (mode : Mode)
    (s : S) (n : Nat) : runFrom ev streams allow k mode [] s n = (.ok s, n) := rfl

lemma runFrom_cons {J R S M : Type} (ev : Evaluator J R S M)
    (streams : List (List (ParsedLine J))) (allow : Bool) (k : Int) (mode : Mode)
    (idx : Nat) (rest : List Nat) (s : S) (n : Nat) :
    runFrom ev streams allow k mode (idx :: rest) s n =
      if (idx : Int) = k then (.ok s, n)
      else
        match buildGroup ev streams allow idx with
        | .error e => (.error e, n)
        | .ok g =>
          match ev.update s g mode with
          | .error e => (.error e, n)
          | .ok s1 => runFrom ev streams allow k mode rest s1 (n + 1) := rfl

/-- With allow_incomplete=true the Math run never raises inside the
loop: over the index window starting at `start`, the loop returns a
state and performs one update per index until the max_samples break
(`min` of the remaining budget and the window length). -/
lemma runFromMathTrue (streams : List (List (ParsedLine MathJson))) (k : Int) (mode : Mode)
    (hne : streams ≠ []) :
    ∀ (len start : Nat) (s : MathState) (n : Nat),
      (k < 0 ∨ (0 ≤ k ∧ start ≤ k.toNat)) →
      ∃ s1, runFrom mathEvaluator streams true k mode (List.range' start len) s n =
        (.ok s1, n + (if k < 0 then len else min (k.toNat - start) len)) := by
  intro len
  induction len with
  | zero =>
    intro start s n hk
    refine ⟨s, ?_⟩
    rcases hk with hneg | ⟨hpos, hle⟩
    · simp [runFrom, hneg]
    · simp [runFrom, not_lt.mpr hpos]
  | succ len ih =>
    intro start s n hk
    rw [List.range'_succ]
    by_cases hbreak : (start : Int) = k
    · rcases hk with hneg | ⟨hpos, hle⟩
      · exact absurd hbreak (by omega)
      · have hkt : k.toNat = start := by omega
        refine ⟨s, ?_⟩
        rw [runFrom_cons, if_pos hbreak, if_neg (by omega : ¬k < 0), hkt]
        simp
    · obtain ⟨g, hg, hglen⟩ := buildGroup_true_ok mathEvaluator streams start
      have hgne : g ≠ [] := by
        intro habs
        rw [habs] at hglen
        exact hne (List.length_eq_zero.mp hglen.symm)
      obtain ⟨s1, hs1, _⟩ := mathUpdate_ok s g mode hgne
      have hk1 : k < 0 ∨ (0 ≤ k ∧ start + 1 ≤ k.toNat) := by
        rcases hk with hneg | ⟨hpos, hle⟩
        · exact Or.inl hneg
        · exact Or.inr ⟨hpos, by omega⟩
      obtain ⟨s2, hs2⟩ := ih (start + 1) s1 (n + 1) hk1
      refine ⟨s2, ?_⟩
      have hupd : mathEvaluator.update s g mode = .ok s1 := hs1
      rw [runFrom_cons, if_neg hbreak]
      simp only [hg, hupd, hs2]
      rcases hk with hneg | ⟨hpos, hle⟩
      · simp only [if_pos hneg]
        congr 1
        omega
      · have hlt : start < k.toNat := by omega
        rw [if_neg (by omega : ¬k < 0), if_neg (by omega : ¬k < 0)]
        congr 1
        omega

/-- With allow_incomplete=false, if some index of the processed window
has a failing line in some stream, the Math run escapes with the
missing-data error. -/
lemma runFromMathMissing (streams : List (List (ParsedLine MathJson))) (k : Int) (mode : Mode)
    (hne : streams ≠ []) :
    ∀ (len start : Nat) (s : MathState) (n : Nat),
      (∃ j, start ≤ j ∧ j < start + len ∧ (k < 0 ∨ (j : Int) < k) ∧
        ∃ st ∈ streams, lineFails mathEvaluator st j = true) →
      (runFrom mathEvaluator streams false k mode (List.range' start len) s n).1 =
        .error .missingData := by
  intro len
  induction len with
  | zero =>
    intro start s n h
    obtain ⟨j, h1, h2, _⟩ := h
    omega
  | succ len ih =>
    intro start s n h
    obtain ⟨j, hj1, hj2, hjk, st0, hst0, hfail⟩ := h
    rw [List.range'_succ, runFrom_cons]
    by_cases hbreak : (start : Int) = k
    · exfalso
      rcases hjk with hneg | hlt <;> omega
    · rw [if_neg hbreak]
      cases hbg : buildGroup mathEvaluator streams false start with
      | error e =>
        have he := buildGroup_error_eq mathEvaluator streams false start e hbg
        subst he
        rfl
      | ok g =>
        have hjstart : j ≠ start := by
          intro habs
          subst habs
          rw [buildGroup_false_fail mathEvaluator streams j ⟨st0, hst0, hfail⟩] at hbg
          exact absurd hbg (by simp)
        have hgne : g ≠ [] := by
          intro habs
          have := buildGroup_ok_length mathEvaluator streams false start g hbg
          rw [habs] at this
          exact hne (List.length_eq_zero.mp this.symm)
        obtain ⟨s1, hs1, _⟩ := mathUpdate_ok s g mode hgne
        have hupd : mathEvaluator.update s g mode = .ok s1 := hs1
        simp only [hupd]
        exact ih (start + 1) s1 (n + 1) ⟨j, by omega, by omega, hjk, st0, hst0, hfail⟩

/-- Every error escaping the Math loop is a missing-data or an
index error, never the division error of get_metrics. -/
lemma runFromMathErrorShape (streams : List (List (ParsedLine MathJson))) (allow : Bool)
    (k : Int) (mode : Mode) :
    ∀ (l : List Nat) (s : MathState) (n : Nat) (e : Err),
      (runFrom mathEvaluator streams allow k mode l s n).1 = .error e →
      e = .missingData ∨ e = .indexError := by
  intro l
  induction l with
  | nil =>
    intro s n e h
    rw [runFrom_nil] at h
    exact absurd h (by simp)
  | cons idx rest ih =>
    intro s n e h
    rw [runFrom_cons] at h
    by_cases hbreak : (idx : Int) = k
    · rw [if_pos hbreak] at h
      exact absurd h (by simp)
    · rw [if_neg hbreak] at h
      cases hbg : buildGroup mathEvaluator streams allow idx with
      | error e1 =>
        rw [hbg] at h
        simp at h
        subst h
        exact Or.inl (buildGroup_error_eq mathEvaluator streams allow idx e1 hbg)
      | ok g =>
        simp only [hbg] at h
        cases hu : mathEvaluator.update s g mode with
        | error e2 =>
          simp only [hu] at h
          simp at h
          subst h
          exact Or.inr (mathUpdate_error s g mode e2 hu)
        | ok s1 =>
          simp only [hu] at h
          exact ih s1 (n + 1) e h

/-! ## Claim theorems -/

/-- C3: with allow_incomplete=false, whenever any stream at any index of
the processed window (inside the max_samples budget and the zip_longest
range) has an absent line, a falsy JSON line, or an incomplete record,
compute_metrics on the Math family escapes with the missing-data error —
the same error for all three failure cases — and returns no metrics. -/
theorem c3_theorem (streams : List (List (ParsedLine MathJson))) (k : Int) (mode : Mode)
    (idx : Nat) (hidx : idx < maxLen streams) (hk : k < 0 ∨ (idx : Int) < k)
    (hfail : ∃ st ∈ streams, lineFails mathEvaluator st idx = true) :
    (computeMetricsMath streams false k mode).result = .error .missingData := by
  have hne : streams ≠ [] := by
    rcases hfail with ⟨st, hst, _⟩
    intro habs
    rw [habs] at hst
    simp at hst
  have hrun := runFromMathMissing streams k mode hne (maxLen streams) 0 mathEvaluator.reset 0
    ⟨idx, Nat.zero_le idx, by omega, hk, hfail⟩
  rw [computeMetricsMath, computeMetrics, List.range_eq_range']
  cases hr : runFrom mathEvaluator streams false k mode (List.range' 0 (maxLen streams))
      mathEvaluator.reset 0 with
  | mk r n =>
    rw [hr] at hrun
    cases r with
    | error e =>
      simp at hrun
      subst hrun
      rfl
    | ok s => simp at hrun

/-- C3 witness: one single blank-line stream with unbounded max_samples
satisfies the hypotheses and the run indeed errors with missing data. -/
theorem c3_witness :
    0 < maxLen [[ParsedLine.blank (J := MathJson)]] ∧
    (computeMetricsMath [[.blank]] false (-1) .first).result = .error .missingData :=
  ⟨by decide, c3_theorem [[.blank]] (-1) .first 0 (by decide) (Or.inl (by norm_num))
    ⟨[.blank], by simp, rfl⟩⟩

/-- C2 counterexample: with allow_incomplete=false and a blank line the
run aborts with the missing-data error and the close loop after the
for-loop never runs, so the stream handles are not closed on this exit
path, contradicting the claim that they are closed on every exit path. -/
theorem c2_counterexample :
    (computeMetricsMath [[.blank]] false (-1) .first).result = .error .missingData ∧
    (computeMetricsMath [[.blank]] false (-1) .first).handlesClosed = false :=
  ⟨rfl, rfl⟩

/-- C2 (amended): the handles are closed whenever the loop is left
normally — on completion and on the max_samples break, including when
get_metrics then raises the zero-division error — but they are not
closed when the run aborts with the missing-data error. -/
theorem c2_theorem (streams : List (List (ParsedLine MathJson))) (allow : Bool) (k : Int)
    (mode : Mode) :
    (∀ m, (computeMetricsMath streams allow k mode).result = .ok m →
      (computeMetricsMath streams allow k mode).handlesClosed = true) ∧
    ((computeMetricsMath streams allow k mode).result = .error .divisionByZero →
      (computeMetricsMath streams allow k mode).handlesClosed = true) ∧
    ((computeMetricsMath streams allow k mode).result = .error .missingData →
      (computeMetricsMath streams allow k mode).handlesClosed = false) := by
  rw [computeMetricsMath, computeMetrics]
  cases hr : runFrom mathEvaluator streams allow k mode (List.range (maxLen streams))
      mathEvaluator.reset 0 with
  | mk r n =>
    cases r with
    | error e =>
      have hshape := runFromMathErrorShape streams allow k mode
        (List.range (maxLen streams)) mathEvaluator.reset 0 e (by rw [hr])
      refine ⟨?_, ?_, ?_⟩
      · intro m hm
        simp at hm
      · intro hm
        simp at hm
        subst hm
        rcases hshape with h | h <;> exact absurd h (by simp)
      · intro hm
        rfl
    | ok s =>
      refine ⟨?_, ?_, ?_⟩
      · intro m hm
        rfl
      · intro hm
        rfl
      · intro hm
        simp only at hm
        by_cases ht : s.total = 0
        · have : mathEvaluator.get_metrics s = .error .divisionByZero := by
            show mathGetMetrics s = _
            rw [mathGetMetrics, if_pos ht]
          rw [this] at hm
          simp at hm
        · have hne2 := ht
          have : ∃ m, mathEvaluator.get_metrics s = .ok m := by
            show ∃ m, mathGetMetrics s = .ok m
            rw [mathGetMetrics, if_neg ht]
            exact ⟨_, rfl⟩
          obtain ⟨m, hmet⟩ := this
          rw [hmet] at hm
          simp at hm

/-- C2 witness: with zero streams the loop is left normally and
get_metrics raises the zero-division error, so the amended theorem gives
that the handles were closed. -/
theorem c2_witness :
    (computeMetricsMath [] true (-1) .first).handlesClosed = true :=
  (c2_theorem [] true (-1) .first).2.1 rfl

/-- C5: with allow_incomplete=true and a non-negative max_samples `k`,
compute_metrics on the Math family calls Evaluator.update exactly
min(k, length of the longest stream) times; in particular k = 0
processes zero groups. -/
theorem c5_theorem (streams : List (List (ParsedLine MathJson))) (k : Int) (mode : Mode)
    (hk : 0 ≤ k) :
    (computeMetricsMath streams true k mode).updates = min k.toNat (maxLen streams) := by
  by_cases hne : streams = []
  · subst hne
    have hml : maxLen ([] : List (List (ParsedLine MathJson))) = 0 := rfl
    rw [computeMetricsMath, computeMetrics, hml]
    simp [runFrom_nil]
  · obtain ⟨s1, hs1⟩ := runFromMathTrue streams k mode hne (maxLen streams) 0
      mathEvaluator.reset 0 (Or.inr ⟨hk, Nat.zero_le _⟩)
    rw [computeMetricsMath, computeMetrics, List.range_eq_range']
    rw [hs1]
    simp only
    rw [if_neg (by omega : ¬k < 0)]
    omega

/-- C5 witness: two-sample stream with max_samples = 1 processes exactly
min(1, 2) = 1 group. -/
theorem c5_witness :
    (computeMetricsMath [[.record ⟨some (some "1"), some true⟩,
        .record ⟨some (some "2"), some false⟩]] true 1 .first).updates =
      min (Int.toNat 1) (maxLen [[ParsedLine.record (⟨some (some "1"), some true⟩ : MathJson),
        .record ⟨some (some "2"), some false⟩]]) ∧
    min (Int.toNat 1) (maxLen [[ParsedLine.record (⟨some (some "1"), some true⟩ : MathJson),
        .record ⟨some (some "2"), some false⟩]]) = 1 :=
  ⟨c5_theorem [[.record ⟨some (some "1"), some true⟩, .record ⟨some (some "2"), some false⟩]]
      1 .first (by norm_num), by decide⟩

/-- C6 counterexample: max_samples = 0 is not unbounded — over a
one-line stream the loop breaks at once and processes zero groups
instead of the one group an unbounded run processes. -/
theorem c6_counterexample :
    (computeMetricsMath [[.record ⟨some (some "1"), some true⟩]] true 0 .first).updates = 0 ∧
    maxLen [[ParsedLine.record (⟨some (some "1"), some true⟩ : MathJson)]] = 1 :=
  ⟨rfl, rfl⟩

/-- C6 (amended): only a strictly negative max_samples is unbounded —
the loop then processes every index up to the length of the longest
stream (max_samples = 0 instead processes zero groups, see C5). -/
theorem c6_theorem (streams : List (List (ParsedLine MathJson))) (k : Int) (mode : Mode)
    (hk : k < 0) :
    (computeMetricsMath streams true k mode).updates = maxLen streams := by
  by_cases hne : streams = []
  · subst hne
    have hml : maxLen ([] : List (List (ParsedLine MathJson))) = 0 := rfl
    rw [computeMetricsMath, computeMetrics, hml]
    simp [runFrom_nil]
  · obtain ⟨s1, hs1⟩ := runFromMathTrue streams k mode hne (maxLen streams) 0
      mathEvaluator.reset 0 (Or.inl hk)
    rw [computeMetricsMath, computeMetrics, List.range_eq_range']
    rw [hs1]
    simp only
    rw [if_pos hk]
    omega

/-- C6 witness: max_samples = -1 over a two-line stream processes both
groups. -/
theorem c6_witness :
    (computeMetricsMath [[.record ⟨some (some "1"), some true⟩,
        .record ⟨some (some "2"), some false⟩]] true (-1) .first).updates =
      maxLen [[ParsedLine.record (⟨some (some "1"), some true⟩ : MathJson),
        .record ⟨some (some "2"), some false⟩]] :=
  c6_theorem [[.record ⟨some (some "1"), some true⟩, .record ⟨some (some "2"), some false⟩]]
    (-1) .first (by norm_num)

/-- C8: deriving metrics with a zero accumulated total raises the
zero-division error for every family: at the driver level a run over
zero streams errors with division-by-zero, and at the evaluator level
get_metrics on a zero-total state errors for Math, Code and IFEval. -/
theorem c8_theorem (allow : Bool) (k : Int) (mode : Mode) :
    ((computeMetricsMath [] allow k mode).result = .error .divisionByZero) ∧
    ((computeMetricsCode [] allow k mode).result = .error .divisionByZero) ∧
    ((computeMetricsIF [] allow k mode).result = .error .divisionByZero) ∧
    (∀ s : MathState, s.total = 0 → mathGetMetrics s = .error .divisionByZero) ∧
    (∀ s : CodeState, s.total = 0 → codeGetMetrics s = .error .divisionByZero) ∧
    (∀ s : IFState, s.strict_stats.prompt_total = 0 →
      ifGetMetrics s = .error .divisionByZero) := by
  refine ⟨rfl, rfl, rfl, ?_, ?_, ?_⟩
  · intro s h
    rw [mathGetMetrics, if_pos h]
  · intro s h
    rw [codeGetMetrics, if_pos h]
  · intro s h
    rw [ifGetMetrics]
    simp only [h]
    rfl

/-- C8 witness: the freshly reset Math state has zero total and its
get_metrics indeed raises the zero-division error. -/
theorem c8_witness : mathGetMetrics mathReset = .error .divisionByZero :=
  (c8_theorem true (-1) .first).2.2.2.1 mathReset rfl

/-- C9: in Math best mode a group with some correct record but only
null predicted answers increments both total_correct and
total_no_answer in a single update, and concretely the derived
wrong_answer percentage is then negative. -/
theorem c9_theorem (g : List MathRecord) (s : MathState)
    (h1 : ∃ e ∈ g, e.is_correct = true) (h2 : ∀ e ∈ g, e.predicted_answer = none) :
    mathUpdate s g .best =
      .ok ⟨s.total_correct + 1, s.total_no_answer + 1, s.total + 1⟩ ∧
    ∃ s1 m, mathUpdate mathReset [⟨none, true⟩] .best = .ok s1 ∧
      mathGetMetrics s1 = .ok m ∧ m.wrong_answer < 0 := by
  constructor
  · have hany : (g.any fun e => e.is_correct) = true := by
      rcases h1 with ⟨e, he, hc⟩
      exact List.any_eq_true.mpr ⟨e, he, by simp [hc]⟩
    have hall : (g.all fun e => e.predicted_answer.isNone) = true := by
      apply List.all_eq_true.mpr
      intro e he
      simp [h2 e he]
    simp [mathUpdate, hany, hall]
  · refine ⟨⟨1, 1, 1⟩,
      {num_entries := 1, correct_answer := 100, wrong_answer := -100, no_answer := 100},
      rfl, ?_, by norm_num⟩
    rw [mathGetMetrics]
    norm_num

/-- C9 witness: the single-record group with a null answer and a true
is_correct flag discharges both hypotheses, and the update from the
reset state increments both counters. -/
theorem c9_witness :
    mathUpdate mathReset [⟨none, true⟩] .best = .ok ⟨1, 1, 1⟩ ∧
    ∃ s1 m, mathUpdate mathReset [⟨none, true⟩] .best = .ok s1 ∧
      mathGetMetrics s1 = .ok m ∧ m.wrong_answer < 0 :=
  c9_theorem [⟨none, true⟩] mathReset ⟨⟨none, true⟩, by simp, rfl⟩ (by simp)

/-- Each successful update adds exactly one to the running total, so a
successful sequence of updates from the reset state has total equal to
the number of groups. -/
lemma mathRunUpdates_total :
    ∀ (groups : List (List MathRecord × Mode)) (s s2 : MathState),
      mathRunUpdates s groups = .ok s2 → s2.total = s.total + groups.length := by
  intro groups
  induction groups with
  | nil =>
    intro s s2 h
    rw [mathRunUpdates] at h
    simp at h
    subst h
    simp
  | cons gm rest ih =>
    intro s s2 h
    rw [mathRunUpdates] at h
    cases hu : mathUpdate s gm.1 gm.2 with
    | error e => rw [hu] at h; exact absurd h (by simp)
    | ok s1 =>
      rw [hu] at h
      have h1 := mathUpdate_total s gm.1 gm.2 s1 hu
      have h2 := ih s1 s2 h
      rw [h2, h1]
      simp
      omega

/-- C7: after any non-empty successful sequence of MathEval updates
(any supported modes), get_metrics returns percentages whose wrong
component is computed from the raw counts and which sum exactly to 100
(division modelled exactly over the rationals). -/
theorem c7_theorem (groups : List (List MathRecord × Mode)) (s2 : MathState)
    (hne : groups ≠ []) (hrun : mathRunUpdates mathReset groups = .ok s2) :
    ∃ m, mathGetMetrics s2 = .ok m ∧
      m.wrong_answer =
        ((s2.total : ℚ) - (s2.total_correct : ℚ) - (s2.total_no_answer : ℚ)) /
          (s2.total : ℚ) * 100 ∧
      m.correct_answer + m.wrong_answer + m.no_answer = 100 := by
  have htot : s2.total = groups.length := by
    have := mathRunUpdates_total groups mathReset s2 hrun
    simpa [mathReset] using this
  have hpos : s2.total ≠ 0 := by
    rw [htot]
    simpa using hne
  rw [mathGetMetrics, if_neg hpos]
  refine ⟨_, rfl, rfl, ?_⟩
  have h0 : (s2.total : ℚ) ≠ 0 := Nat.cast_ne_zero.mpr hpos
  field_simp
  ring

/-- C7 witness: a single first-mode group with one correct answered
record gives total 1 and percentages 100 + 0 + 0 = 100. -/
theorem c7_witness :
    ∃ m, mathGetMetrics ⟨1, 0, 1⟩ = .ok m ∧
      m.wrong_answer = (((1 : Nat) : ℚ) - ((1 : Nat) : ℚ) - ((0 : Nat) : ℚ)) / ((1 : Nat) : ℚ) * 100 ∧
      m.correct_answer + m.wrong_answer + m.no_answer = 100 :=
  c7_theorem [([⟨some "1", true⟩], .first)] ⟨1, 0, 1⟩ (by simp) rfl

/-- Invariant of the selection fold of pickFirstMax: the result
dominates the seed and every traversed element in count, and it is
either the seed itself or sits in the traversed list strictly after
only elements of smaller count (with count strictly above the seed). -/
lemma foldlPickSpec {α : Type} (cnt : α → Nat) :
    ∀ (xs : List α) (b r : α),
      xs.foldl (fun v y => if cnt v < cnt y then y else v) b = r →
      cnt b ≤ cnt r ∧ (∀ q ∈ xs, cnt q ≤ cnt r) ∧
      (r = b ∨ ∃ xs1 xs2, xs = xs1 ++ r :: xs2 ∧ (∀ q ∈ xs1, cnt q < cnt r) ∧ cnt b < cnt r) := by
  intro xs
  induction xs with
  | nil =>
    intro b r h
    simp at h
    subst h
    exact ⟨le_refl _, by simp, Or.inl rfl⟩
  | cons x xs ih =>
    intro b r h
    rw [List.foldl_cons] at h
    by_cases hc : cnt b < cnt x
    · rw [if_pos hc] at h
      obtain ⟨h1, h2, h3⟩ := ih x r h
      refine ⟨le_trans (le_of_lt hc) h1, ?_, ?_⟩
      · intro q hq
        rcases List.mem_cons.mp hq with rfl | hq2
        · exact h1
        · exact h2 q hq2
      · rcases h3 with rfl | ⟨xs1, xs2, heq, hsm, hlt⟩
        · exact Or.inr ⟨[], xs, by simp, by simp, hc⟩
        · refine Or.inr ⟨x :: xs1, xs2, by simp [heq], ?_, lt_trans hc hlt⟩
          intro q hq
          rcases List.mem_cons.mp hq with rfl | hq2
          · exact hlt
          · exact hsm q hq2
    · rw [if_neg hc] at h
      obtain ⟨h1, h2, h3⟩ := ih b r h
      refine ⟨h1, ?_, ?_⟩
      · intro q hq
        rcases List.mem_cons.mp hq with rfl | hq2
        · exact le_trans (not_lt.mp hc) h1
        · exact h2 q hq2
      · rcases h3 with rfl | ⟨xs1, xs2, heq, hsm, hlt⟩
        · exact Or.inl rfl
        · refine Or.inr ⟨x :: xs1, xs2, by simp [heq], ?_, hlt⟩
          intro q hq
          rcases List.mem_cons.mp hq with rfl | hq2
          · exact lt_of_le_of_lt (not_lt.mp hc) hlt
          · exact hsm q hq2

/-- pickFirstMax on a non-empty list selects an element of maximal
multiplicity whose selected occurrence is preceded only by elements of
strictly smaller multiplicity — the first-seen element among those tied
for the highest count, exactly Counter.most_common(1). -/
lemma pickFirstMax_spec {α : Type} [BEq α] (l : List α) (hl : l ≠ []) :
    ∃ p, pickFirstMax l = some p ∧
      (∃ l1 l2, l = l1 ++ p :: l2 ∧ ∀ q ∈ l1, l.count q < l.count p) ∧
      ∀ q ∈ l, l.count q ≤ l.count p := by
  cases l with
  | nil => exact absurd rfl hl
  | cons x xs =>
    have hpick : pickFirstMax (x :: xs) =
        some (xs.foldl (fun v y => if (x :: xs).count v < (x :: xs).count y then y else v) x) :=
      rfl
    set p := xs.foldl (fun v y => if (x :: xs).count v < (x :: xs).count y then y else v) x
      with hpdef
    obtain ⟨h1, h2, h3⟩ := foldlPickSpec (fun a => (x :: xs).count a) xs x p hpdef.symm
    refine ⟨p, hpick, ?_, ?_⟩
    · rcases h3 with heqb | ⟨xs1, xs2, heq, hsm, hlt⟩
      · exact ⟨[], xs, by simp [heqb], by simp⟩
      · refine ⟨x :: xs1, xs2, by simp [heq], ?_⟩
        intro q hq
        rcases List.mem_cons.mp hq with rfl | hq2
        · exact hlt
        · exact hsm q hq2
    · intro q hq
      rcases List.mem_cons.mp hq with rfl | hq2
      · exact h1
      · exact h2 q hq2

/-- C4: in Math majority mode, when no record has a non-null
predicted_answer the group counts as no-answer; otherwise the selected
(predicted_answer, is_correct) pair has the highest frequency among the
valid pairs, its selected occurrence is preceded only by strictly less
frequent pairs (first-seen tie-break), and its is_correct component
alone determines the correct increment. -/
theorem c4_theorem (g : List MathRecord) (s : MathState) :
    (validAnswers g = [] →
      mathUpdate s g .majority =
        .ok ⟨s.total_correct, s.total_no_answer + 1, s.total + 1⟩) ∧
    (validAnswers g ≠ [] →
      ∃ p l1 l2, pickFirstMax (validAnswers g) = some p ∧
        validAnswers g = l1 ++ p :: l2 ∧
        (∀ q ∈ l1, (validAnswers g).count q < (validAnswers g).count p) ∧
        (∀ q ∈ validAnswers g, (validAnswers g).count q ≤ (validAnswers g).count p) ∧
        mathUpdate s g .majority =
          .ok ⟨s.total_correct + (if p.2 then 1 else 0), s.total_no_answer, s.total + 1⟩) := by
  constructor
  · intro hve
    have hp : pickFirstMax (validAnswers g) = none := by rw [hve]; rfl
    simp [mathUpdate, hp]
  · intro hne
    obtain ⟨p, hp, ⟨l1, l2, heq, hsm⟩, hmax⟩ := pickFirstMax_spec (validAnswers g) hne
    exact ⟨p, l1, l2, hp, heq, hsm, hmax, by simp [mathUpdate, hp]⟩

/-- C4 witness: the spec example group [("2",false), ("2",false),
("3",true)] has valid pairs, and the theorem yields the majority pair
and the update result. -/
theorem c4_witness :
    ∃ p l1 l2,
      pickFirstMax (validAnswers [⟨some "2", false⟩, ⟨some "2", false⟩, ⟨some "3", true⟩]) =
        some p ∧
      validAnswers [⟨some "2", false⟩, ⟨some "2", false⟩, ⟨some "3", true⟩] = l1 ++ p :: l2 ∧
      (∀ q ∈ l1,
        (validAnswers [⟨some "2", false⟩, ⟨some "2", false⟩, ⟨some "3", true⟩]).count q <
        (validAnswers [⟨some "2", false⟩, ⟨some "2", false⟩, ⟨some "3", true⟩]).count p) ∧
      (∀ q ∈ validAnswers [⟨some "2", false⟩, ⟨some "2", false⟩, ⟨some "3", true⟩],
        (validAnswers [⟨some "2", false⟩, ⟨some "2", false⟩, ⟨some "3", true⟩]).count q ≤
        (validAnswers [⟨some "2", false⟩, ⟨some "2", false⟩, ⟨some "3", true⟩]).count p) ∧
      mathUpdate mathReset [⟨some "2", false⟩, ⟨some "2", false⟩, ⟨some "3", true⟩] .majority =
        .ok ⟨0 + (if p.2 then 1 else 0), 0, 0 + 1⟩ :=
  (c4_theorem [⟨some "2", false⟩, ⟨some "2", false⟩, ⟨some "3", true⟩] mathReset).2 (by decide)

/-! ## Helper lemmas about the IFEval merge -/

lemma orMerge_length :
    ∀ (acc elem r : List Bool), orMerge acc elem = some r → r.length = acc.length := by
  intro acc
  induction acc with
  | nil =>
    intro elem r h
    simp [orMerge] at h
    subst h
    rfl
  | cons a arest ih =>
    intro elem r h
    cases a with
    | true =>
      simp only [orMerge] at h
      cases ho : orMerge arest elem.tail with
      | none => rw [ho] at h; exact absurd h (by simp)
      | some r0 =>
        rw [ho] at h
        simp at h
        subst h
        simp [ih elem.tail r0 ho]
    | false =>
      cases elem with
      | nil => simp [orMerge] at h
      | cons b brest =>
        simp only [orMerge] at h
        cases ho : orMerge arest brest with
        | none => rw [ho] at h; exact absurd h (by simp)
        | some r0 =>
          rw [ho] at h
          simp at h
          subst h
          simp [ih brest r0 ho]

lemma orMerge_isSome_of_le :
    ∀ (acc elem : List Bool), acc.length ≤ elem.length → (orMerge acc elem).isSome := by
  intro acc
  induction acc with
  | nil =>
    intro elem h
    simp [orMerge]
  | cons a arest ih =>
    intro elem h
    cases elem with
    | nil => simp at h
    | cons b brest =>
      have hle : arest.length ≤ brest.length := by
        simp at h
        omega
      cases a with
      | true =>
        rcases Option.isSome_iff_exists.mp (ih brest hle) with ⟨r, hr⟩
        simp [orMerge, List.tail_cons, hr]
      | false =>
        rcases Option.isSome_iff_exists.mp (ih brest hle) with ⟨r, hr⟩
        simp [orMerge, hr]

lemma orMerge_take :
    ∀ acc elem : List Bool, orMerge acc (elem.take acc.length) = orMerge acc elem := by
  intro acc
  induction acc with
  | nil => intro elem; rfl
  | cons a arest ih =>
    intro elem
    cases elem with
    | nil => rw [List.take_nil]
    | cons b brest =>
      rw [List.length_cons, List.take_succ_cons]
      cases a with
      | true =>
        simp only [orMerge, List.tail_cons]
        rw [ih brest]
      | false =>
        simp only [orMerge]
        rw [ih brest]

lemma foldOr_isSome_of_le (es : List EvalBlock) :
    ∀ acc : List Bool,
      (∀ e ∈ es, acc.length ≤ e.follow_instruction_list.length) →
      (es.foldlM (fun a e => orMerge a e.follow_instruction_list) acc).isSome := by
  induction es with
  | nil =>
    intro acc h
    simp [List.foldlM_nil]
  | cons e es ih =>
    intro acc h
    have hstep : (e :: es).foldlM (fun a x => orMerge a x.follow_instruction_list) acc =
        (orMerge acc e.follow_instruction_list >>= fun b =>
          es.foldlM (fun a x => orMerge a x.follow_instruction_list) b) := rfl
    rw [hstep]
    have h1 : acc.length ≤ e.follow_instruction_list.length := h e (by simp)
    rcases Option.isSome_iff_exists.mp
      (orMerge_isSome_of_le acc e.follow_instruction_list h1) with ⟨a1, ha1⟩
    rw [ha1]
    have hlen := orMerge_length acc e.follow_instruction_list a1 ha1
    show (es.foldlM (fun a x => orMerge a x.follow_instruction_list) a1).isSome
    refine ih a1 ?_
    intro e2 he2
    rw [hlen]
    exact h e2 (by simp [he2])

lemma foldOr_trunc (L : Nat) (es : List EvalBlock) :
    ∀ acc : List Bool, acc.length = L →
      ((es.map fun e =>
          EvalBlock.mk (e.follow_instruction_list.take L) e.instruction_id_list).foldlM
        (fun a e => orMerge a e.follow_instruction_list) acc) =
      es.foldlM (fun a e => orMerge a e.follow_instruction_list) acc := by
  induction es with
  | nil => intro acc hacc; rfl
  | cons e es ih =>
    intro acc hacc
    rw [List.map_cons, List.foldlM_cons, List.foldlM_cons]
    have hor : orMerge acc (e.follow_instruction_list.take L) =
        orMerge acc e.follow_instruction_list := by
      rw [← hacc]
      exact orMerge_take acc e.follow_instruction_list
    show (orMerge acc (e.follow_instruction_list.take L) >>= fun a =>
        (es.map fun e =>
          EvalBlock.mk (e.follow_instruction_list.take L) e.instruction_id_list).foldlM
          (fun a e => orMerge a e.follow_instruction_list) a) = _
    rw [hor]
    cases ho : orMerge acc e.follow_instruction_list with
    | none => rfl
    | some a1 =>
      have hlen : a1.length = L := by
        rw [orMerge_length acc e.follow_instruction_list a1 ho, hacc]
      show (es.map fun e =>
          EvalBlock.mk (e.follow_instruction_list.take L) e.instruction_id_list).foldlM
          (fun a e => orMerge a e.follow_instruction_list) a1 = _
      exact ih a1 hlen

/-- C10 counterexample: the merge is well-defined even though the
second record's follow_instruction_list is shorter than the first
record's — with first list [true] the short-circuit or never indexes
the second, empty list — so well-definedness does not require every
record's list to be at least as long as the first record's, refuting
the claim's iff and its premise that every record is indexed at each
position of the first record's list. -/
theorem c10_counterexample :
    mergeFollow [⟨[true], ["a"]⟩, ⟨[], []⟩] = some [true] ∧
    ¬((⟨[true], ["a"]⟩ : EvalBlock).follow_instruction_list.length ≤
      (⟨[], []⟩ : EvalBlock).follow_instruction_list.length) :=
  ⟨rfl, by decide⟩

/-- C10 (amended): the pass-at-k merge of IFEval._update_single_stat is
well-defined whenever every element's follow_instruction_list is at
least as long as the first element's — but not only then, since the
short-circuit or skips indexing an element at positions whose
accumulated value is already true — and entries of element lists beyond
the first element's length are never read (truncating every later
element to that length does not change the merge). -/
theorem c10_theorem (e0 : EvalBlock) (es : List EvalBlock) :
    ((∀ e ∈ e0 :: es,
        e0.follow_instruction_list.length ≤ e.follow_instruction_list.length) →
      (mergeFollow (e0 :: es)).isSome) ∧
    mergeFollow (e0 :: es) =
      mergeFollow (e0 :: es.map fun e =>
        EvalBlock.mk (e.follow_instruction_list.take e0.follow_instruction_list.length)
          e.instruction_id_list) := by
  constructor
  · intro h
    rw [mergeFollow]
    exact foldOr_isSome_of_le (e0 :: es) e0.follow_instruction_list h
  · rw [mergeFollow, mergeFollow]
    have hstep1 : (e0 :: es).foldlM (fun a x => orMerge a x.follow_instruction_list)
        e0.follow_instruction_list =
        (orMerge e0.follow_instruction_list e0.follow_instruction_list >>= fun b =>
          es.foldlM (fun a x => orMerge a x.follow_instruction_list) b) := rfl
    have hstep2 : (e0 :: es.map fun e =>
          EvalBlock.mk (e.follow_instruction_list.take e0.follow_instruction_list.length)
            e.instruction_id_list).foldlM (fun a x => orMerge a x.follow_instruction_list)
        e0.follow_instruction_list =
        (orMerge e0.follow_instruction_list e0.follow_instruction_list >>= fun b =>
          (es.map fun e =>
            EvalBlock.mk (e.follow_instruction_list.take e0.follow_instruction_list.length)
              e.instruction_id_list).foldlM
            (fun a x => orMerge a x.follow_instruction_list) b) := rfl
    rw [hstep1, hstep2]
    cases ho : orMerge e0.follow_instruction_list e0.follow_instruction_list with
    | none => rfl
    | some a1 =>
      have hlen : a1.length = e0.follow_instruction_list.length :=
        orMerge_length _ _ _ ho
      show es.foldlM (fun a x => orMerge a x.follow_instruction_list) a1 = (es.map fun e =>
          EvalBlock.mk (e.follow_instruction_list.take e0.follow_instruction_list.length)
            e.instruction_id_list).foldlM (fun a x => orMerge a x.follow_instruction_list) a1
      exact (foldOr_trunc e0.follow_instruction_list.length es a1 hlen).symm

/-- C10 witness: a two-record group where every list is at least as
long as the first record's indeed merges successfully. -/
theorem c10_witness :
    (mergeFollow [⟨[false], ["a"]⟩, ⟨[false, true], ["a", "b"]⟩]).isSome :=
  (c10_theorem ⟨[false], ["a"]⟩ [⟨[false, true], ["a", "b"]⟩]).1 (by decide)

/-! ## Helper lemmas about placeholder insertion -/

lemma insertIdx_filter {α : Type} (p : α → Bool) (a : α) (hp : p a = false) :
    ∀ (i : Nat) (l : List α), (l.insertIdx i a).filter p = l.filter p := by
  intro i
  induction i with
  | zero =>
    intro l
    rw [List.insertIdx_zero, List.filter_cons, if_neg (by simp [hp])]
  | succ i ih =>
    intro l
    cases l with
    | nil => simp
    | cons x xs =>
      rw [List.insertIdx_succ_cons, List.filter_cons, List.filter_cons, ih xs]

lemma insertIdx_any {α : Type} (p : α → Bool) (a : α) (hp : p a = false) :
    ∀ (i : Nat) (l : List α), (l.insertIdx i a).any p = l.any p := by
  intro i
  induction i with
  | zero =>
    intro l
    rw [List.insertIdx_zero, List.any_cons, hp]
    simp
  | succ i ih =>
    intro l
    cases l with
    | nil => simp
    | cons x xs =>
      rw [List.insertIdx_succ_cons, List.any_cons, List.any_cons, ih xs]

/-- C1 (amended): with allow_incomplete=true the Math driver never
raises — a run returns metrics or only the zero-division error raised
by get_metrics after the loop — and for the Math and Code families a
substituted placeholder record never contributes to the correct
counters: inserting the canonical fill_up_missing record anywhere into
a non-empty group leaves update total (no exception) with correct
counters no larger than without the placeholder.  (For IFEval the
claim fails: the substitution can raise an index error, see the
counterexample.) -/
theorem c1_theorem :
    (∀ (streams : List (List (ParsedLine MathJson))) (k : Int) (mode : Mode),
      (∃ m, (computeMetricsMath streams true k mode).result = .ok m) ∨
      (computeMetricsMath streams true k mode).result = .error .divisionByZero) ∧
    (∀ (g : List MathRecord) (i : Nat) (s : MathState) (mode : Mode), g ≠ [] →
      ∃ a b, mathUpdate s (g.insertIdx i mathFill) mode = .ok a ∧
        mathUpdate s g mode = .ok b ∧ a.total_correct ≤ b.total_correct) ∧
    (∀ (g : List CodeRecord) (i : Nat) (s : CodeState) (mode : Mode),
      g ≠ [] → mode ≠ .majority →
      ∃ a b, codeUpdate s (g.insertIdx i codeFill) mode = .ok a ∧
        codeUpdate s g mode = .ok b ∧ a.total_correct ≤ b.total_correct ∧
        a.total_correct_plus ≤ b.total_correct_plus) := by
  refine ⟨?_, ?_, ?_⟩
  · intro streams k mode
    by_cases hne : streams = []
    · subst hne
      exact Or.inr rfl
    · have hk2 : k < 0 ∨ (0 ≤ k ∧ 0 ≤ k.toNat) := by
        rcases lt_or_le k 0 with h | h
        · exact Or.inl h
        · exact Or.inr ⟨h, Nat.zero_le _⟩
      obtain ⟨s1, hs1⟩ := runFromMathTrue streams k mode hne (maxLen streams) 0
        mathEvaluator.reset 0 hk2
      have hres : (computeMetricsMath streams true k mode).result = mathGetMetrics s1 := by
        rw [computeMetricsMath, computeMetrics, List.range_eq_range', hs1]
        rfl
      by_cases ht : s1.total = 0
      · right
        rw [hres, mathGetMetrics, if_pos ht]
      · left
        rw [hres, mathGetMetrics, if_neg ht]
        exact ⟨_, rfl⟩
  · intro g i s mode hne
    cases mode with
    | best =>
      refine ⟨_, _, rfl, rfl, ?_⟩
      show s.total_correct +
          (if (g.insertIdx i mathFill).any (fun e => e.is_correct) then 1 else 0) ≤
        s.total_correct + (if g.any (fun e => e.is_correct) then 1 else 0)
      rw [insertIdx_any (fun e => e.is_correct) mathFill rfl i g]
    | majority =>
      have hv : validAnswers (g.insertIdx i mathFill) = validAnswers g := by
        rw [validAnswers, validAnswers,
          insertIdx_filter (fun e => e.predicted_answer.isSome) mathFill rfl i g]
      cases hp : pickFirstMax (validAnswers g) with
      | none =>
        exact ⟨⟨s.total_correct, s.total_no_answer + 1, s.total + 1⟩,
          ⟨s.total_correct, s.total_no_answer + 1, s.total + 1⟩,
          by simp [mathUpdate, hv, hp],
          by simp [mathUpdate, hp], le_refl _⟩
      | some p =>
        exact ⟨⟨s.total_correct + (if p.2 then 1 else 0), s.total_no_answer, s.total + 1⟩,
          ⟨s.total_correct + (if p.2 then 1 else 0), s.total_no_answer, s.total + 1⟩,
          by simp [mathUpdate, hv, hp],
          by simp [mathUpdate, hp], le_refl _⟩
    | first =>
      cases g with
      | nil => exact absurd rfl hne
      | cons x xs =>
        cases i with
        | zero =>
          refine ⟨⟨s.total_correct, s.total_no_answer + 1, s.total + 1⟩,
            ⟨s.total_correct + (if x.is_correct then 1 else 0),
              s.total_no_answer + (if x.predicted_answer.isNone then 1 else 0),
              s.total + 1⟩, ?_, rfl, ?_⟩
          · rw [List.insertIdx_zero]
            simp [mathUpdate, mathFill]
          · exact Nat.le_add_right _ _
        | succ i =>
          rw [List.insertIdx_succ_cons]
          exact ⟨_, _, rfl, rfl, le_refl _⟩
  · intro g i s mode hne hmode
    cases mode with
    | best =>
      refine ⟨_, _, rfl, rfl, ?_, ?_⟩
      · show s.total_correct +
            (if (g.insertIdx i codeFill).any (fun e => e.is_correct) then 1 else 0) ≤
          s.total_correct + (if g.any (fun e => e.is_correct) then 1 else 0)
        rw [insertIdx_any (fun e => e.is_correct) codeFill rfl i g]
      · show s.total_correct_plus +
            (if (g.insertIdx i codeFill).any (fun e => e.is_correct_plus) then 1 else 0) ≤
          s.total_correct_plus + (if g.any (fun e => e.is_correct_plus) then 1 else 0)
        rw [insertIdx_any (fun e => e.is_correct_plus) codeFill rfl i g]
    | majority => exact absurd rfl hmode
    | first =>
      cases g with
      | nil => exact absurd rfl hne
      | cons x xs =>
        cases i with
        | zero =>
          refine ⟨⟨s.total_correct, s.total_correct_plus, s.total + 1⟩,
            ⟨s.total_correct + (if x.is_correct then 1 else 0),
              s.total_correct_plus + (if x.is_correct_plus then 1 else 0),
              s.total + 1⟩, ?_, rfl, ?_, ?_⟩
          · rw [List.insertIdx_zero]
            simp [codeUpdate, codeFill]
          · exact Nat.le_add_right _ _
          · exact Nat.le_add_right _ _
        | succ i =>
          rw [List.insertIdx_succ_cons]
          exact ⟨_, _, rfl, rfl, le_refl _, le_refl _⟩


/-- C1 witness: a concrete Math run with a missing line and a concrete
placeholder insertion into a Math group and a Code group, with all
hypotheses discharged. -/
theorem c1_witness :
    ((∃ m, (computeMetricsMath [[.record ⟨some (some "1"), some true⟩], [.blank]]
        true (-1) .best).result = .ok m) ∨
      (computeMetricsMath [[.record ⟨some (some "1"), some true⟩], [.blank]]
        true (-1) .best).result = .error .divisionByZero) ∧
    (∃ a b, mathUpdate mathReset ([⟨some "1", true⟩].insertIdx 0 mathFill) .first = .ok a ∧
      mathUpdate mathReset [⟨some "1", true⟩] .first = .ok b ∧
      a.total_correct ≤ b.total_correct) ∧
    (∃ a b, codeUpdate codeReset ([⟨true, true⟩].insertIdx 1 codeFill) .best = .ok a ∧
      codeUpdate codeReset [⟨true, true⟩] .best = .ok b ∧
      a.total_correct ≤ b.total_correct ∧ a.total_correct_plus ≤ b.total_correct_plus) :=
  ⟨c1_theorem.1 [[.record ⟨some (some "1"), some true⟩], [.blank]] (-1) .best,
    c1_theorem.2.1 [⟨some "1", true⟩] 0 mathReset .first (by simp),
    c1_theorem.2.2 [⟨true, true⟩] 1 codeReset .best (by simp) (by simp)⟩

/-- C1 counterexample: with allow_incomplete=true on the IFEval family,
one stream's line is missing while the other stream's record has
follow_instruction_list [false]; the accumulated value at position 0 is
still false, so the best-mode merge indexes the substituted empty-list
placeholder there and raises an index error instead of never
raising. -/
theorem c1_counterexample :
    (computeMetricsIF
      [[.record ⟨some ⟨some [false], some ["a"]⟩, some ⟨some [false], some ["a"]⟩⟩],
       [.blank]] true (-1) .best).result = .error .indexError :=
  rfl
